import Mathlib

/-!
Shallow embedding of `track_squishmallows.py`: a single-pass price tracker
that scrapes product cards, filters them by keyword / size / price, dedups
by resolved URL, diffs the extracted items against a persisted JSON
snapshot, conditionally sends an alert, and overwrites the snapshot file.

Text is modelled as `List Char`; Python substring membership (`sub in s`)
as `containsSub`; prices as exact rationals (the regex always yields a
decimal numeral, and Python float equality on such values coincides with
equality of the denoted decimal); the JSON state file as an abstract JSON
value (the text serialization round-trip is the json library's guarantee).
-/

/-- Text, modelling a Python `str` as its sequence of characters. -/
abbrev Str := List Char

/-- Python substring test `needle in hay` on strings. -/
def containsSub (needle : Str) : Str → Bool
  | [] => needle.isEmpty
  | c :: rest => needle.isPrefixOf (c :: rest) || containsSub needle rest

/-- `SEARCH_URL` constant from the script. -/
def SEARCH_URL : Str := "https://www.frysfood.com/q/squishmallow".data

/-- `SMALL_SIZES` constant from the script, in source order. -/
def SMALL_SIZES : List Str :=
  ["2.5 in".data, "4 in".data, "5 in".data, "6 in".data, "7 in".data, "8 in".data]

/-- Numeric value of a digit string (most significant first). -/
def digitsToNat (ds : Str) : Nat :=
  ds.foldl (fun n c => 10 * n + (c.toNat - 48)) 0

/-- Attempt of the regex `\$([\d]+\.\d{2})` anchored at the head of the text:
a dollar sign, a maximal nonempty run of digits, a dot, then two digits
(greedy `[\d]+` followed by `\.` is exactly "maximal digit run ending at a dot").
Returns the value `float(group(1))` as an exact rational. -/
def matchPriceAt : Str → Option ℚ
  | '$' :: rest =>
    let ds := rest.takeWhile Char.isDigit
    if ds.isEmpty then none
    else
      match rest.drop ds.length with
      | '.' :: d1 :: d2 :: _ =>
        if d1.isDigit && d2.isDigit then
          some ((digitsToNat (ds ++ [d1, d2]) : ℚ) / 100)
        else none
      | _ => none
  | _ => none

/-- `parse_price`: `re.search` scans start positions left to right;
the first successful match wins, no match yields `None`. -/
def parse_price : Str → Option ℚ
  | [] => none
  | c :: rest =>
    match matchPriceAt (c :: rest) with
    | some q => some q
    | none => parse_price rest

/-- The loop body of `is_small_size`: try each size label in order,
returning the first one contained in the text. -/
def sizeLoop : List Str → Str → Option Str
  | [], _ => none
  | s :: rest, text => if containsSub s text then some s else sizeLoop rest text

/-- `is_small_size`: first label of `SMALL_SIZES` contained in the text, else `None`. -/
def is_small_size (text : Str) : Option Str :=
  sizeLoop SMALL_SIZES text

/-- The keyword filter of the card loop:
`"Squishmallow" in text or "Squishmallows" in text` (the card is skipped
when both are absent). -/
def keywordOK (text : Str) : Bool :=
  containsSub "Squishmallow".data text || containsSub "Squishmallows".data text

/-- A candidate block (product card), abstracted to exactly the DOM queries
the extractor performs on it: its flattened text, the text of the dedicated
name element if present, the texts of heading/strong/anchor sub-elements in
document order, the text of the dedicated price element if present, and the
first anchor's href if present. -/
structure Card where
  text : Str
  nameEl : Option Str
  subTags : List Str
  priceEl : Option Str
  linkHref : Option Str

/-- An extracted item, as appended to `items` by `scrape_items`. -/
structure Item where
  key : Str
  name : Str
  size : Str
  price : ℚ
  url : Str
deriving DecidableEq

/-- Name extraction: dedicated name element if present; else first
heading/strong/anchor sub-element whose text contains `"Squish"`; else the
first 80 characters of the block text. -/
def extractName (c : Card) : Str :=
  match c.nameEl with
  | some n => n
  | none =>
    match c.subTags.find? (fun t => containsSub "Squish".data t) with
    | some t => t
    | none => c.text.take 80

/-- One iteration of the card loop before deduplication: keyword filter,
name extraction, size filter, price extraction from the dedicated price
element's text (else the whole block text), URL resolution of the first
anchor href against the search URL (else the search URL itself). Returns
`none` when the card is skipped. -/
def cardToItem (resolve : Str → Str) (c : Card) : Option Item :=
  if keywordOK c.text then
    let name := extractName c
    match is_small_size c.text with
    | none => none
    | some size =>
      match parse_price (c.priceEl.getD c.text) with
      | none => none
      | some price =>
        let url := match c.linkHref with
          | some h => resolve h
          | none => SEARCH_URL
        some { key := url, name := name, size := size, price := price, url := url }
  else none

/-- The card loop with its `seen` set: accepted items whose key was already
seen are discarded, otherwise the key is recorded and the item appended. -/
def scrapeLoop (resolve : Str → Str) : List Card → List Str → List Item
  | [], _ => []
  | c :: rest, seen =>
    match cardToItem resolve c with
    | none => scrapeLoop resolve rest seen
    | some it =>
      if it.key ∈ seen then scrapeLoop resolve rest seen
      else it :: scrapeLoop resolve rest (it.key :: seen)

/-- `scrape_items` on a list of candidate cards, with URL resolution
(`urljoin SEARCH_URL`) abstracted as `resolve`. -/
def scrapeItems (resolve : Str → Str) (cards : List Card) : List Item :=
  scrapeLoop resolve cards []

/-- A snapshot value `{name, size, price, url}`, as stored under each key. -/
structure Entry where
  name : Str
  size : Str
  price : ℚ
  url : Str
deriving DecidableEq

/-- The persisted snapshot: a key-to-entry mapping, modelled as an
insertion-ordered association list (Python dicts preserve insertion order). -/
abbrev Snapshot := List (Str × Entry)

/-- Dictionary lookup `state.get(key)` on the association-list model. -/
def sfind (s : Snapshot) (k : Str) : Option Entry :=
  (s.find? (fun p => p.1 = k)).map Prod.snd

/-- Dictionary assignment `state[key] = v`: replace in place when the key
exists, append otherwise (Python insertion-order semantics). -/
def dictInsert (s : Snapshot) (k : Str) (v : Entry) : Snapshot :=
  if (sfind s k).isSome then s.map (fun p => if p.1 = k then (k, v) else p)
  else s ++ [(k, v)]

/-- Abstract JSON values of the shapes the state file can hold. -/
inductive Json where
  | num (q : ℚ)
  | str (s : Str)
  | obj (fields : List (Str × Json))

/-- Serialization of one snapshot entry, as `json.dump` writes it. -/
def entryToJson (e : Entry) : Json :=
  Json.obj [("name".data, Json.str e.name), ("size".data, Json.str e.size),
            ("price".data, Json.num e.price), ("url".data, Json.str e.url)]

/-- Serialization of the whole snapshot mapping, as `json.dump` writes it. -/
def snapshotToJson (s : Snapshot) : Json :=
  Json.obj (s.map (fun p => (p.1, entryToJson p.2)))

/-- Decoding of one entry from a loaded JSON value, per the mapping shape
`{name: string, size: string, price: number, url: string}`. -/
def jsonToEntry : Json → Option Entry
  | Json.obj [(k1, Json.str n), (k2, Json.str sz), (k3, Json.num p), (k4, Json.str u)] =>
    if k1 = "name".data ∧ k2 = "size".data ∧ k3 = "price".data ∧ k4 = "url".data then
      some ⟨n, sz, p, u⟩
    else none
  | _ => none

/-- Decoding of a loaded field list back into a snapshot. -/
def decodeFields : List (Str × Json) → Option Snapshot
  | [] => some []
  | (k, v) :: rest =>
    match jsonToEntry v, decodeFields rest with
    | some e, some s => some ((k, e) :: s)
    | _, _ => none

/-- Decoding of a loaded JSON document back into a snapshot mapping;
`none` for any document not of the mapping shape. -/
def jsonToSnapshot : Json → Option Snapshot
  | Json.obj fields => decodeFields fields
  | _ => none

/-- `load_state`: absent file gives the empty mapping; a present file is
parsed, a malformed one (not the snapshot mapping shape) is fatal (`none`). -/
def loadState : Option Json → Option Snapshot
  | none => some []
  | some j => jsonToSnapshot j

/-- A change record, as appended to `changed` by the diff loop. -/
structure ChangedItem where
  name : Str
  size : Str
  url : Str
  old_price : ℚ
  price : ℚ
deriving DecidableEq

/-- The snapshot entry `main` stores for a current item. -/
def mkEntry (i : Item) : Entry :=
  ⟨i.name, i.size, i.price, i.url⟩

/-- The change record `main` appends for a current item whose stored price differs. -/
def mkChanged (i : Item) (oldPrice : ℚ) : ChangedItem :=
  ⟨i.name, i.size, i.url, oldPrice, i.price⟩

/-- The diff loop of `main`: each current item is written into `new_state`;
when its key exists in the old snapshot with a different price, a change
record carrying old and new price is appended. -/
def diffLoop (old : Snapshot) : List Item → Snapshot → List ChangedItem → Snapshot × List ChangedItem
  | [], ns, ch => (ns, ch)
  | i :: rest, ns, ch =>
    let ns2 := dictInsert ns i.key (mkEntry i)
    match sfind old i.key with
    | some e =>
      if i.price ≠ e.price then diffLoop old rest ns2 (ch ++ [mkChanged i e.price])
      else diffLoop old rest ns2 ch
    | none => diffLoop old rest ns2 ch

/-- The diff of `main`, started from the empty `new_state` and `changed`. -/
def computeDiff (old : Snapshot) (items : List Item) : Snapshot × List ChangedItem :=
  diffLoop old items [] []

/-- The three environment values the notifier needs; `none` models an unset
variable (`os.environ.get` returning `None`). -/
structure Config where
  EMAIL_USER : Option Str
  EMAIL_PASS : Option Str
  ALERT_TO : Option Str

/-- Python truthiness of an optional string: `None` and `""` are falsy. -/
def truthyOpt : Option Str → Bool
  | none => false
  | some s => !s.isEmpty

/-- Outcome of a `send_alert` call: returned early, sent the message, or
raised out of the SMTP session. -/
inductive SendResult where
  | skipped
  | sent
  | raised
deriving DecidableEq

/-- `send_alert`: returns immediately when the changed list is empty or any
of the three credential values is falsy; otherwise the SMTP session either
delivers the message or raises (modelled by the `smtpOk` oracle). -/
def sendAlert (cfg : Config) (smtpOk : Bool) (changed : List ChangedItem) : SendResult :=
  if changed.isEmpty || !(truthyOpt cfg.EMAIL_USER && truthyOpt cfg.EMAIL_PASS && truthyOpt cfg.ALERT_TO) then
    SendResult.skipped
  else if smtpOk then SendResult.sent
  else SendResult.raised

/-- What happened to the alert within one run of `main`. -/
inductive AlertOutcome where
  | notAttempted
  | skipped
  | sent
  | raised
deriving DecidableEq

/-- Embedding of a `send_alert` outcome into the run-level outcome. -/
def outcomeOf : SendResult → AlertOutcome
  | SendResult.skipped => AlertOutcome.skipped
  | SendResult.sent => AlertOutcome.sent
  | SendResult.raised => AlertOutcome.raised

/-- Observable result of one run of `main`. -/
structure MainResult where
  newState : Snapshot
  changed : List ChangedItem
  alert : AlertOutcome
  fileAfter : Option Json

/-- The guarded alert statement `if old_state and changed: send_alert(changed)`:
`send_alert` is called only when the old snapshot and the changed list are
both non-empty (Python truthiness of the dict and the list). -/
def alertOf (cfg : Config) (smtpOk : Bool) (old : Snapshot) (changed : List ChangedItem) :
    AlertOutcome :=
  if ¬ old.isEmpty ∧ ¬ changed.isEmpty then outcomeOf (sendAlert cfg smtpOk changed)
  else AlertOutcome.notAttempted

/-- One run of `main`, given the state file's contents and the extraction
result: load the old snapshot (malformed file aborts the run, `none`),
diff, run the guarded alert, then save — an alert that raises propagates,
so the state file keeps its prior contents. -/
def runMain (cfg : Config) (smtpOk : Bool) (fileBefore : Option Json) (items : List Item) :
    Option MainResult :=
  match loadState fileBefore with
  | none => none
  | some old =>
    let r := computeDiff old items
    let alert := alertOf cfg smtpOk old r.2
    let fileAfter := if alert = AlertOutcome.raised then fileBefore else some (snapshotToJson r.1)
    some ⟨r.1, r.2, alert, fileAfter⟩

/-! Helper lemmas. -/

theorem isPrefixOf_append_left : ∀ (x y l : Str), (x ++ y).isPrefixOf l = true → x.isPrefixOf l = true
  | [], _, l, _ => by cases l <;> simp [List.isPrefixOf]
  | a :: x, y, [], h => by simp [List.isPrefixOf] at h
  | a :: x, y, b :: l, h => by
    simp only [List.cons_append, List.isPrefixOf, Bool.and_eq_true] at h ⊢
    exact ⟨h.1, isPrefixOf_append_left x y l h.2⟩

theorem containsSub_append_left : ∀ (x y h : Str), containsSub (x ++ y) h = true → containsSub x h = true
  | x, y, [], hc => by
    simp only [containsSub, List.isEmpty_iff, List.append_eq_nil] at hc ⊢
    exact hc.1
  | x, y, c :: rest, hc => by
    simp only [containsSub, Bool.or_eq_true] at hc ⊢
    cases hc with
    | inl h1 => exact Or.inl (isPrefixOf_append_left x y (c :: rest) h1)
    | inr h2 => exact Or.inr (containsSub_append_left x y rest h2)

/-- Key-based deduplication keeping the first occurrence, written directly
from the spec's words ("later blocks sharing a key with an already-accepted
block are discarded, first occurrence wins"), for comparison with the fused
card loop. -/
def dedupFirst : List Item → List Str → List Item
  | [], _ => []
  | i :: rest, seen =>
    if i.key ∈ seen then dedupFirst rest seen
    else i :: dedupFirst rest (i.key :: seen)

theorem scrapeLoop_eq_dedupFirst (resolve : Str → Str) :
    ∀ (cards : List Card) (seen : List Str),
      scrapeLoop resolve cards seen = dedupFirst (cards.filterMap (cardToItem resolve)) seen
  | [], _ => rfl
  | c :: cards, seen => by
    simp only [scrapeLoop, List.filterMap_cons]
    cases hc : cardToItem resolve c with
    | none => exact scrapeLoop_eq_dedupFirst resolve cards seen
    | some it =>
      simp only [dedupFirst]
      by_cases hs : it.key ∈ seen
      · simp only [hs, if_pos]
        exact scrapeLoop_eq_dedupFirst resolve cards seen
      · simp only [hs, if_neg, not_false_iff]
        rw [scrapeLoop_eq_dedupFirst resolve cards (it.key :: seen)]

theorem dedupFirst_keys_nodup : ∀ (l : List Item) (seen : List Str),
    ((dedupFirst l seen).map (fun i => i.key)).Nodup ∧
      ∀ i ∈ dedupFirst l seen, i.key ∉ seen
  | [], _ => by simp [dedupFirst]
  | i :: rest, seen => by
    simp only [dedupFirst]
    by_cases hs : i.key ∈ seen
    · simp only [hs, if_pos]
      exact dedupFirst_keys_nodup rest seen
    · simp only [hs, if_neg, not_false_iff]
      obtain ⟨hnd, hout⟩ := dedupFirst_keys_nodup rest (i.key :: seen)
      refine ⟨List.nodup_cons.mpr ⟨?_, hnd⟩, ?_⟩
      · intro hmem
        obtain ⟨j, hj, hjk⟩ := List.mem_map.mp hmem
        exact (hout j hj) (hjk ▸ List.mem_cons_self _ _)
      · intro j hj
        cases hj with
        | head => exact hs
        | tail _ hj2 =>
          intro hjin
          exact (hout j hj2) (List.mem_cons_of_mem _ hjin)

theorem mem_dedupFirst : ∀ (l : List Item) (seen : List Str) (i : Item),
    i ∈ dedupFirst l seen → i ∈ l
  | [], _, _, h => absurd h (by simp [dedupFirst])
  | j :: rest, seen, i, h => by
    simp only [dedupFirst] at h
    by_cases hs : j.key ∈ seen
    · rw [if_pos hs] at h
      exact List.mem_cons_of_mem _ (mem_dedupFirst rest seen i h)
    · rw [if_neg hs] at h
      cases h with
      | head => exact List.mem_cons_self _ _
      | tail _ h2 => exact List.mem_cons_of_mem _ (mem_dedupFirst rest (j.key :: seen) i h2)

theorem mem_scrapeItems (resolve : Str → Str) (cards : List Card) (i : Item)
    (h : i ∈ scrapeItems resolve cards) :
    ∃ c, c ∈ cards ∧ cardToItem resolve c = some i := by
  unfold scrapeItems at h
  rw [scrapeLoop_eq_dedupFirst] at h
  have := mem_dedupFirst _ _ _ h
  obtain ⟨c, hc, he⟩ := List.mem_filterMap.mp this
  exact ⟨c, hc, he⟩

theorem cardToItem_inv (resolve : Str → Str) (c : Card) (i : Item)
    (h : cardToItem resolve c = some i) :
    is_small_size c.text = some i.size ∧
      parse_price (c.priceEl.getD c.text) = some i.price := by
  unfold cardToItem at h
  split at h
  · split at h
    · exact absurd h (by simp)
    · split at h
      · exact absurd h (by simp)
      · cases h
        constructor <;> assumption
  · exact absurd h (by simp)

theorem cardToItem_size_none (resolve : Str → Str) (c : Card)
    (h : is_small_size c.text = none) : cardToItem resolve c = none := by
  unfold cardToItem
  split
  · rw [h]
  · rfl

theorem cardToItem_price_none (resolve : Str → Str) (c : Card)
    (h : parse_price (c.priceEl.getD c.text) = none) : cardToItem resolve c = none := by
  unfold cardToItem
  split
  · cases hs : is_small_size c.text with
    | none => rfl
    | some size => rw [h]
  · rfl

theorem sizeLoop_eq_find : ∀ (L : List Str) (t : Str),
    sizeLoop L t = L.find? (fun s => containsSub s t)
  | [], _ => rfl
  | s :: L, t => by
    simp only [sizeLoop, List.find?]
    cases h : containsSub s t with
    | true => rfl
    | false => exact sizeLoop_eq_find L t

/-! Claim theorems. -/

/-- Claim C10: the keyword filter keeps a block exactly when its flattened
text contains the singular form "Squishmallow"; the plural check in the
source is redundant, since every text containing "Squishmallows" also
contains "Squishmallow". -/
theorem keywordOK_eq_singular : ∀ t : Str, keywordOK t = containsSub "Squishmallow".data t := by
  intro t
  cases hs : containsSub "Squishmallow".data t with
  | true => simp [keywordOK, hs]
  | false =>
    simp only [keywordOK, hs, Bool.false_or]
    cases hp : containsSub "Squishmallows".data t with
    | false => rfl
    | true =>
      have he : ("Squishmallows".data : Str) = "Squishmallow".data ++ ['s'] := rfl
      rw [he] at hp
      rw [containsSub_append_left _ _ _ hp] at hs
      exact hs

/-- Claim C6: the size filter matches the block's flattened text against the
fixed ordered list `SMALL_SIZES` by substring containment, the first
matching label in that order becomes the item's size, and a block matching
no label is excluded from the extractor's output. -/
theorem size_filter_correct (resolve : Str → Str) (cards : List Card) :
    (∀ t : Str, is_small_size t = SMALL_SIZES.find? (fun s => containsSub s t)) ∧
    (∀ c : Card, is_small_size c.text = none → cardToItem resolve c = none) ∧
    (∀ i ∈ scrapeItems resolve cards,
      ∃ c, c ∈ cards ∧ cardToItem resolve c = some i ∧ is_small_size c.text = some i.size) := by
  refine ⟨fun t => sizeLoop_eq_find SMALL_SIZES t, fun c h => cardToItem_size_none resolve c h, ?_⟩
  intro i hi
  obtain ⟨c, hc, he⟩ := mem_scrapeItems resolve cards i hi
  exact ⟨c, hc, he, (cardToItem_inv resolve c i he).1⟩

/-- A sample card whose text matches no accepted size label. -/
def cardNoSize : Card :=
  ⟨"Squishmallow Giant Plush 20 inch $29.99".data, none, [], none, some "/p/giant".data⟩

/-- Witness for C6 at a concrete card: a card with an untracked size is excluded. -/
theorem size_filter_correct_witness : cardToItem (fun h => h) cardNoSize = none :=
  (size_filter_correct (fun h => h) []).2.1 cardNoSize (by decide)

/-- Claim C7: the extractor equals accepting cards one by one and then
keeping only the first occurrence of each dedup key (later blocks whose key
was already accepted are discarded), and the keys in its output are
pairwise distinct. -/
theorem dedup_first_occurrence_wins (resolve : Str → Str) (cards : List Card) :
    scrapeItems resolve cards = dedupFirst (cards.filterMap (cardToItem resolve)) [] ∧
    ((scrapeItems resolve cards).map (fun i => i.key)).Nodup := by
  constructor
  · exact scrapeLoop_eq_dedupFirst resolve cards []
  · unfold scrapeItems
    rw [scrapeLoop_eq_dedupFirst resolve cards []]
    exact (dedupFirst_keys_nodup (cards.filterMap (cardToItem resolve)) []).1

/-- Claim C4: `send_alert` returns without opening an SMTP session and
without raising whenever the changed list is empty or any one of
`EMAIL_USER`, `EMAIL_PASS`, `ALERT_TO` is unset. -/
theorem sendAlert_guard (cfg : Config) (smtpOk : Bool) (changed : List ChangedItem)
    (h : changed = [] ∨ cfg.EMAIL_USER = none ∨ cfg.EMAIL_PASS = none ∨ cfg.ALERT_TO = none) :
    sendAlert cfg smtpOk changed = SendResult.skipped := by
  unfold sendAlert
  rcases h with h | h | h | h
  · simp [h]
  all_goals simp [h, truthyOpt]

/-- A sample change record. -/
def changedSample : ChangedItem :=
  ⟨"Squishmallow Cam".data, "8 in".data, "https://x/p/1".data, 10, 12⟩

/-- Witness for C4: with all three credentials unset and a non-empty
changed list, `send_alert` still skips. -/
theorem sendAlert_guard_witness :
    sendAlert ⟨none, none, none⟩ true [changedSample] = SendResult.skipped :=
  sendAlert_guard ⟨none, none, none⟩ true [changedSample] (Or.inr (Or.inl rfl))

theorem jsonToEntry_entryToJson (e : Entry) : jsonToEntry (entryToJson e) = some e := by
  simp [jsonToEntry, entryToJson]

theorem decodeFields_roundtrip : ∀ s : Snapshot,
    decodeFields (s.map (fun p => (p.1, entryToJson p.2))) = some s
  | [] => rfl
  | (k, e) :: s => by
    simp [decodeFields, jsonToEntry_entryToJson, decodeFields_roundtrip s]

/-- Claim C8: for every snapshot mapping (keys unique, as in a Python
dict), saving it to the state file and loading it back returns an equal
mapping. -/
theorem save_load_roundtrip (S : Snapshot) (hkeys : (S.map Prod.fst).Nodup) :
    jsonToSnapshot (snapshotToJson S) = some S := by
  simp [snapshotToJson, jsonToSnapshot, decodeFields_roundtrip S]

/-- A sample two-entry snapshot with distinct keys. -/
def snapSample : Snapshot :=
  [("https://x/p/1".data, ⟨"Cam".data, "8 in".data, 10, "https://x/p/1".data⟩),
   ("https://x/p/2".data, ⟨"Fifi".data, "5 in".data, (1299 : ℚ)/100, "https://x/p/2".data⟩)]

/-- Witness for C8 at a concrete two-entry snapshot. -/
theorem save_load_roundtrip_witness : jsonToSnapshot (snapshotToJson snapSample) = some snapSample :=
  save_load_roundtrip snapSample (by decide)

theorem diffLoop_snd (old : Snapshot) :
    ∀ (items : List Item) (ns : Snapshot) (ch : List ChangedItem),
      (diffLoop old items ns ch).2 = ch ++ items.filterMap (fun i =>
        match sfind old i.key with
        | some e => if i.price ≠ e.price then some (mkChanged i e.price) else none
        | none => none)
  | [], ns, ch => by simp [diffLoop]
  | i :: items, ns, ch => by
    cases hf : sfind old i.key with
    | none =>
      have h1 : diffLoop old (i :: items) ns ch
          = diffLoop old items (dictInsert ns i.key (mkEntry i)) ch := by
        simp [diffLoop, hf]
      rw [h1, diffLoop_snd old items _ ch, List.filterMap_cons]
      simp [hf]
    | some e =>
      by_cases hp : i.price = e.price
      · have h1 : diffLoop old (i :: items) ns ch
            = diffLoop old items (dictInsert ns i.key (mkEntry i)) ch := by
          simp [diffLoop, hf, hp]
        rw [h1, diffLoop_snd old items _ ch, List.filterMap_cons]
        simp [hf, hp]
      · have h1 : diffLoop old (i :: items) ns ch
            = diffLoop old items (dictInsert ns i.key (mkEntry i)) (ch ++ [mkChanged i e.price]) := by
          simp [diffLoop, hf, hp]
        rw [h1, diffLoop_snd old items _ (ch ++ [mkChanged i e.price]), List.filterMap_cons]
        simp [hf, hp]

/-- Claim C1: the diff records exactly one `ChangedItem` for each current
item whose key is present in the old snapshot with a stored price different
(exact inequality) from the current price, carrying the old and the new
price; items whose key is absent from the old snapshot contribute nothing. -/
theorem diff_records_changes (old : Snapshot) (items : List Item) :
    (computeDiff old items).2 = items.filterMap (fun i =>
      match sfind old i.key with
      | some e => if i.price ≠ e.price then some (mkChanged i e.price) else none
      | none => none) := by
  unfold computeDiff
  rw [diffLoop_snd old items [] []]
  simp

theorem dictInsert_mem (s : Snapshot) (k : Str) (v : Entry) (kv : Str × Entry)
    (h : kv ∈ dictInsert s k v) : kv ∈ s ∨ kv = (k, v) := by
  unfold dictInsert at h
  split at h
  · obtain ⟨p, hp, he⟩ := List.mem_map.mp h
    by_cases hk : p.1 = k
    · right
      rw [if_pos hk] at he
      exact he.symm
    · left
      rw [if_neg hk] at he
      exact he ▸ hp
  · cases List.mem_append.mp h with
    | inl h1 => exact Or.inl h1
    | inr h2 => exact Or.inr (List.mem_singleton.mp h2)

theorem diffLoop_fst_mem (old : Snapshot) :
    ∀ (items : List Item) (ns : Snapshot) (ch : List ChangedItem) (kv : Str × Entry),
      kv ∈ (diffLoop old items ns ch).1 →
        kv ∈ ns ∨ ∃ i, i ∈ items ∧ kv.2 = mkEntry i
  | [], ns, ch, kv, h => by
    simp only [diffLoop] at h
    exact Or.inl h
  | i :: items, ns, ch, kv, h => by
    have step : ∀ ch2, kv ∈ (diffLoop old items (dictInsert ns i.key (mkEntry i)) ch2).1 →
        kv ∈ ns ∨ ∃ j, j ∈ i :: items ∧ kv.2 = mkEntry j := by
      intro ch2 h2
      cases diffLoop_fst_mem old items _ ch2 kv h2 with
      | inl hin =>
        cases dictInsert_mem ns i.key (mkEntry i) kv hin with
        | inl h3 => exact Or.inl h3
        | inr h3 => exact Or.inr ⟨i, List.mem_cons_self _ _, by rw [h3]⟩
      | inr hex =>
        obtain ⟨j, hj, hje⟩ := hex
        exact Or.inr ⟨j, List.mem_cons_of_mem _ hj, hje⟩
    cases hf : sfind old i.key with
    | none =>
      have h1 : diffLoop old (i :: items) ns ch
          = diffLoop old items (dictInsert ns i.key (mkEntry i)) ch := by
        simp [diffLoop, hf]
      rw [h1] at h
      exact step ch h
    | some e =>
      by_cases hp : i.price = e.price
      · have h1 : diffLoop old (i :: items) ns ch
            = diffLoop old items (dictInsert ns i.key (mkEntry i)) ch := by
          simp [diffLoop, hf, hp]
        rw [h1] at h
        exact step ch h
      · have h1 : diffLoop old (i :: items) ns ch
            = diffLoop old items (dictInsert ns i.key (mkEntry i)) (ch ++ [mkChanged i e.price]) := by
          simp [diffLoop, hf, hp]
        rw [h1] at h
        exact step _ h

/-- Claim C5: a candidate block whose chosen price text (the dedicated
price sub-element's text if present, else the whole block text) yields no
match of the price pattern is excluded from the extractor's output, every
extracted item's price is the parsed value of its block's price text, and
every entry of the new snapshot is built from an extracted item — so every
key present in the new snapshot has a valid price. -/
theorem price_validity (resolve : Str → Str) (cards : List Card) (old : Snapshot) :
    (∀ c : Card, parse_price (c.priceEl.getD c.text) = none → cardToItem resolve c = none) ∧
    (∀ i ∈ scrapeItems resolve cards,
      ∃ c, c ∈ cards ∧ cardToItem resolve c = some i ∧
        parse_price (c.priceEl.getD c.text) = some i.price) ∧
    (∀ kv ∈ (computeDiff old (scrapeItems resolve cards)).1,
      ∃ i, i ∈ scrapeItems resolve cards ∧ kv.2 = mkEntry i) := by
  refine ⟨fun c h => cardToItem_price_none resolve c h, ?_, ?_⟩
  · intro i hi
    obtain ⟨c, hc, he⟩ := mem_scrapeItems resolve cards i hi
    exact ⟨c, hc, he, (cardToItem_inv resolve c i he).2⟩
  · intro kv hkv
    cases diffLoop_fst_mem old (scrapeItems resolve cards) [] [] kv hkv with
    | inl h => exact absurd h (List.not_mem_nil kv)
    | inr h => exact h

/-- A sample card whose price text contains no two-decimal dollar amount. -/
def cardNoPrice : Card :=
  ⟨"Squishmallow Cam 8 in".data, none, [], some "$12".data, some "/p/cam".data⟩

/-- Witness for C5 at a concrete card: a card with unparseable price text is excluded. -/
theorem price_validity_witness : cardToItem (fun h => h) cardNoPrice = none :=
  (price_validity (fun h => h) [] []).1 cardNoPrice (by decide)

theorem runMain_some (cfg : Config) (smtpOk : Bool) (fileBefore : Option Json)
    (items : List Item) (old : Snapshot) (hl : loadState fileBefore = some old) :
    runMain cfg smtpOk fileBefore items =
      some ⟨(computeDiff old items).1, (computeDiff old items).2,
        alertOf cfg smtpOk old (computeDiff old items).2,
        (if alertOf cfg smtpOk old (computeDiff old items).2 = AlertOutcome.raised
          then fileBefore else some (snapshotToJson (computeDiff old items).1))⟩ := by
  unfold runMain
  rw [hl]

theorem runMain_none (cfg : Config) (smtpOk : Bool) (fileBefore : Option Json)
    (items : List Item) (hl : loadState fileBefore = none) :
    runMain cfg smtpOk fileBefore items = none := by
  unfold runMain
  rw [hl]

/-- Claim C2: with an empty old snapshot no alert is attempted, whatever
the extraction produced, and the new snapshot is still persisted; an alert
is attempted only when the old snapshot and the changed list are both
non-empty. -/
theorem first_run_suppression (cfg : Config) (smtpOk : Bool) (file : Option Json)
    (items : List Item) (res : MainResult)
    (h : runMain cfg smtpOk file items = some res) :
    (loadState file = some [] →
      res.alert = AlertOutcome.notAttempted ∧
        res.fileAfter = some (snapshotToJson res.newState)) ∧
    (res.alert ≠ AlertOutcome.notAttempted →
      loadState file ≠ some ([] : Snapshot) ∧ res.changed ≠ []) := by
  cases hl : loadState file with
  | none => rw [runMain_none cfg smtpOk file items hl] at h; exact absurd h (by simp)
  | some old =>
    rw [runMain_some cfg smtpOk file items old hl] at h
    have hres := (Option.some.inj h).symm
    subst hres
    constructor
    · intro hempty
      have ho : old = [] := Option.some.inj hempty
      subst ho
      have ha : alertOf cfg smtpOk [] (computeDiff [] items).2 = AlertOutcome.notAttempted := by
        unfold alertOf
        rw [if_neg]
        intro hcon
        exact hcon.1 rfl
      have hfa : (if alertOf cfg smtpOk [] (computeDiff [] items).2 = AlertOutcome.raised
          then file else some (snapshotToJson (computeDiff [] items).1))
          = some (snapshotToJson (computeDiff [] items).1) := by
        rw [ha]
        simp
      exact ⟨ha, hfa⟩
    · intro halert
      have halt2 : alertOf cfg smtpOk old (computeDiff old items).2 ≠ AlertOutcome.notAttempted :=
        halert
      have hcond : ¬ old.isEmpty ∧ ¬ (computeDiff old items).2.isEmpty := by
        by_contra hc
        exact halt2 (by unfold alertOf; rw [if_neg hc])
      refine ⟨?_, ?_⟩
      · intro heq
        have ho : old = [] := Option.some.inj heq
        rw [ho] at hcond
        exact hcond.1 rfl
      · intro hch
        have hch2 : (computeDiff old items).2 = [] := hch
        rw [hch2] at hcond
        exact hcond.2 rfl

/-- A sample extracted item (price 10). -/
def itemW : Item := ⟨"https://x/p/1".data, "Cam".data, "8 in".data, 10, "https://x/p/1".data⟩

/-- A sample one-entry old snapshot storing price 10 for `itemW`'s key. -/
def oldW : Snapshot := [("https://x/p/1".data, ⟨"Cam".data, "8 in".data, 10, "https://x/p/1".data⟩)]

/-- The same item re-extracted at price 12. -/
def itemW2 : Item := ⟨"https://x/p/1".data, "Cam".data, "8 in".data, 12, "https://x/p/1".data⟩

/-- A configuration with all three credential values set. -/
def cfgFull : Config := ⟨some "a@b".data, some "pw".data, some "to@c".data⟩

/-- The result of a first run (absent state file) extracting one item. -/
def resFirstRun : MainResult :=
  ⟨[("https://x/p/1".data, mkEntry itemW)], [], AlertOutcome.notAttempted,
    some (snapshotToJson [("https://x/p/1".data, mkEntry itemW)])⟩

/-- Witness for C2 at a concrete first run: one extracted item, absent
state file — no alert, snapshot persisted. -/
theorem first_run_suppression_witness :
    resFirstRun.alert = AlertOutcome.notAttempted ∧
      resFirstRun.fileAfter = some (snapshotToJson resFirstRun.newState) :=
  (first_run_suppression ⟨none, none, none⟩ true none [itemW] resFirstRun (by rfl)).1 rfl

/-- Claim C3: the alert runs before the snapshot save, so a run in which
the notifier raises leaves the state file with its prior contents. -/
theorem alert_failure_blocks_save (cfg : Config) (smtpOk : Bool) (fileBefore : Option Json)
    (items : List Item) (res : MainResult)
    (h : runMain cfg smtpOk fileBefore items = some res)
    (hr : res.alert = AlertOutcome.raised) :
    res.fileAfter = fileBefore := by
  cases hl : loadState fileBefore with
  | none => rw [runMain_none cfg smtpOk fileBefore items hl] at h; exact absurd h (by simp)
  | some old =>
    rw [runMain_some cfg smtpOk fileBefore items old hl] at h
    have hres := (Option.some.inj h).symm
    subst hres
    have hr2 : alertOf cfg smtpOk old (computeDiff old items).2 = AlertOutcome.raised := hr
    have hfa : (if alertOf cfg smtpOk old (computeDiff old items).2 = AlertOutcome.raised
        then fileBefore else some (snapshotToJson (computeDiff old items).1)) = fileBefore :=
      if_pos hr2
    exact hfa

/-- The result of a run with full credentials and a failing SMTP session:
the price change is detected, the alert raises, the file keeps its prior
contents. -/
def resRaisedRun : MainResult :=
  ⟨[("https://x/p/1".data, mkEntry itemW2)], [mkChanged itemW2 10], AlertOutcome.raised,
    some (snapshotToJson oldW)⟩

/-- Witness for C3 at a concrete run: a price change with a failing SMTP
session leaves the state file holding the old snapshot. -/
theorem alert_failure_blocks_save_witness :
    resRaisedRun.fileAfter = some (snapshotToJson oldW) :=
  alert_failure_blocks_save cfgFull false (some (snapshotToJson oldW)) [itemW2] resRaisedRun
    (by rfl) rfl

/-- Claim C9: a run that reaches the save step overwrites the state file
wholesale with the serialization of the new snapshot, whatever the file
held before; a run that extracts zero items writes the empty mapping. -/
theorem save_overwrites_wholesale (cfg : Config) (smtpOk : Bool) (file : Option Json)
    (items : List Item) (res : MainResult) (old : Snapshot)
    (h : runMain cfg smtpOk file items = some res)
    (hl : loadState file = some old)
    (hr : res.alert ≠ AlertOutcome.raised) :
    res.fileAfter = some (snapshotToJson (computeDiff old items).1) ∧
    (items = [] → res.fileAfter = some (snapshotToJson ([] : Snapshot))) := by
  rw [runMain_some cfg smtpOk file items old hl] at h
  have hres := (Option.some.inj h).symm
  subst hres
  have hr2 : alertOf cfg smtpOk old (computeDiff old items).2 ≠ AlertOutcome.raised := hr
  have hfa : (if alertOf cfg smtpOk old (computeDiff old items).2 = AlertOutcome.raised
      then file else some (snapshotToJson (computeDiff old items).1))
      = some (snapshotToJson (computeDiff old items).1) :=
    if_neg hr2
  refine ⟨hfa, ?_⟩
  intro hitems
  subst hitems
  exact hfa

/-- The result of a run over a non-empty prior state file that extracts
zero items: no alert, and the empty mapping is written. -/
def resEmptyRun : MainResult :=
  ⟨[], [], AlertOutcome.notAttempted, some (snapshotToJson ([] : Snapshot))⟩

/-- Witness for C9 at a concrete run: a zero-item extraction over a
non-empty prior state file writes the empty mapping. -/
theorem save_overwrites_wholesale_witness :
    resEmptyRun.fileAfter = some (snapshotToJson (computeDiff oldW []).1) ∧
      (([] : List Item) = [] → resEmptyRun.fileAfter = some (snapshotToJson ([] : Snapshot))) :=
  save_overwrites_wholesale ⟨none, none, none⟩ true (some (snapshotToJson oldW)) [] resEmptyRun
    oldW (by rfl) (by rfl) (by decide)
